import Mathlib

/-!
Verification of the GCS FTP driver's namespace-translation layer
(`driver.go`) and metadata adapter (`fileinfo.go`).

Strings are modelled as `List Char`.  The Go `strings` helpers used by the
driver are embedded faithfully below; in particular `strings.TrimLeft`
treats its second argument as a *set of characters* (a cutset), not as a
prefix string, and the embedding preserves that behaviour.

The storage backend (Google's client library, external to the repository)
is modelled from the spec's backend contract (section 6): a flat list of
objects supporting get / list-by-prefix / insert / copy / delete.  Fallible
copy and delete calls, and the error message produced by a failed lookup,
are supplied by a `Faults` oracle so that the driver's error handling can
be examined.  Every driver operation additionally returns the trace of
backend calls it issued.
-/

namespace GcsDriver

abbrev Str := List Char

def slash : Str := ['/']

/-- Go `strings.TrimLeft s cutset`: drop leading characters of `s` that
belong to the cutset (a set of characters, not a prefix). -/
def goTrimLeft : Str → Str → Str
  | [], _ => []
  | c :: rest, cut => if c ∈ cut then goTrimLeft rest cut else c :: rest

/-- Go `strings.TrimRight`. -/
def goTrimRight (s cut : Str) : Str :=
  (goTrimLeft s.reverse cut).reverse

/-- Go `strings.Trim`. -/
def goTrim (s cut : Str) : Str :=
  goTrimRight (goTrimLeft s cut) cut

/-- Go `strings.HasSuffix s suf`. -/
def goHasSuffix (s suf : Str) : Bool :=
  suf.isSuffixOf s

/-- Go `strings.HasPrefix s p`. -/
def goHasPfx (s p : Str) : Bool :=
  p.isPrefixOf s

/-- Go `strings.Contains s sub`: does `sub` occur as a contiguous
substring of `s`? -/
def goContains : Str → Str → Bool
  | [], sub => sub.isPrefixOf []
  | s@(_ :: rest), sub => sub.isPrefixOf s || goContains rest sub

/-- Go `strings.Split(s, sep)[0]` for a one-character separator: the part
of `s` before the first occurrence of `sep`. -/
def goSplitFirst (s : Str) (sep : Char) : Str :=
  s.takeWhile (fun c => c != sep)

/-- Go `strings.Replace(s, old, new, 1)`: replace the first occurrence of
`old` in `s` by `new`. -/
def replaceFirst (old new : Str) : Str → Str
  | [] => if old = [] then new else []
  | c :: rest =>
    if old.isPrefixOf (c :: rest) then new ++ (c :: rest).drop old.length
    else c :: replaceFirst old new rest

/-- The fields of `storage.Object` that the driver reads. -/
structure Obj where
  Name : Str
  Size : Nat
  Updated : Str
deriving DecidableEq

/-- The zero value `storage.Object{}` used for synthesized directories. -/
def Obj.empty : Obj := ⟨[], 0, []⟩

/-- `FileInfo` from `fileinfo.go`: name, directory flag, attributing user
and the embedded backend object record. -/
structure FileInfo where
  name : Str
  isDir : Bool
  User : Str
  Object : Obj
deriving DecidableEq

/-- A backend call issued by a driver operation. -/
inductive Call where
  | get : Str → Call
  | list : Str → Call
  | copy : Str → Str → Call
  | del : Str → Call
  | insert : Str → Call
deriving DecidableEq

/-- Fault oracle for the backend: the error message a failed lookup
produces, and which copy / delete calls fail (and with what message). -/
structure Faults where
  getMissMsg : Str → Str
  copyFail : Str → Str → Option Str
  deleteFail : Str → Option Str

/-- Backend state: the bucket's objects, in the backend's entry order. -/
abbrev Store := List Obj

/-- Backend `GetObject`: the object stored at exactly `key`, if any. -/
def getObject (st : Store) (key : Str) : Option Obj :=
  st.find? (fun o => o.Name == key)

/-- Backend `ListObjects` with a prefix: all objects whose key begins with
`pfx`, in entry order. -/
def listObjs (st : Store) (pfx : Str) : List Obj :=
  st.filter (fun o => pfx.isPrefixOf o.Name)

/-- Backend `GetObject` with its error message (from the fault oracle). -/
def getObjectE (faults : Faults) (st : Store) (key : Str) : Except Str Obj :=
  match getObject st key with
  | some o => .ok o
  | none => .error (faults.getMissMsg key)

/-- Backend `CopyObject`: overwrite `dst` with a copy of `src`. -/
def copyObject (faults : Faults) (st : Store) (src dst : Str) :
    Except Str Store :=
  match faults.copyFail src dst with
  | some msg => .error msg
  | none =>
    match getObject st src with
    | some o => .ok ((st.filter (fun x => x.Name != dst)) ++ [{ o with Name := dst }])
    | none => .error (faults.getMissMsg src)

/-- Backend `DeleteObject`: remove the object stored at `key`. -/
def deleteObject (faults : Faults) (st : Store) (key : Str) :
    Except Str Store :=
  match faults.deleteFail key with
  | some msg => .error msg
  | none => .ok (st.filter (fun o => o.Name != key))

/-- The error message of `Stat`'s not-found branch (driver.go line 128). -/
def errNoDir : Str := "This directory does not exist".data

/-- `Stat` (driver.go lines 100-138).  A trailing-slash path yields a
synthesized directory with the empty object record and no backend call;
otherwise a direct lookup, falling back to a prefix listing whose
non-emptiness makes the path a synthesized directory.  (The source treats
a listing failure as process-fatal; the model's listing is total.) -/
def Stat (st : Store) (user key : Str) : (Except Str FileInfo) × List Call :=
  if goHasSuffix key slash then
    (.ok ⟨key, true, user, Obj.empty⟩, [])
  else
    match getObject st (goTrimLeft key slash) with
    | some entry => (.ok ⟨key, false, user, entry⟩, [.get (goTrimLeft key slash)])
    | none =>
      if (listObjs st (goTrimLeft key slash)).length > 0 then
        (.ok ⟨key, true, user, Obj.empty⟩,
         [.get (goTrimLeft key slash), .list (goTrimLeft key slash)])
      else
        (.error errNoDir,
         [.get (goTrimLeft key slash), .list (goTrimLeft key slash)])

/-- The loop body of `ListDir` (driver.go lines 154-188), carrying the
`dirCache` seen-set; returns the emitted entries in emission order (the
visitor callback consumes exactly this sequence in order, a possible
abort merely truncating it). -/
def listDirLoop (user pfx d : Str) : List Obj → List Str → List FileInfo
  | [], _ => []
  | entry :: rest, cache =>
    if pfx ≠ slash ∧ pfx ≠ [] ∧ goHasPfx entry.Name d = false then
      listDirLoop user pfx d rest cache
    else
      let key := goTrimLeft (goTrimLeft entry.Name d) slash
      if key = [] then listDirLoop user pfx d rest cache
      else if goContains key slash then
        let seg := goTrim (goSplitFirst key '/') slash
        if seg ∈ cache then listDirLoop user pfx d rest cache
        else ⟨seg, true, user, entry⟩ :: listDirLoop user pfx d rest (seg :: cache)
      else ⟨key, false, user, entry⟩ :: listDirLoop user pfx d rest cache

/-- `ListDir` (driver.go lines 141-191): normalize the prefix, list the
backend under it, and run the emission loop with an empty seen-set. -/
def ListDir (st : Store) (user pfx : Str) : List FileInfo :=
  let d0 := goTrimLeft pfx slash
  let d := if d0 = [] then d0 else d0 ++ slash
  listDirLoop user pfx d (listObjs st d) []

/-- The deletion loop of `DeleteDir` (driver.go lines 208-213): delete the
listed entries one at a time, aborting on the first failure. -/
def deleteLoop (faults : Faults) : List Obj → Store → (Except Str Store) × List Call
  | [], st => (.ok st, [])
  | e :: rest, st =>
    match deleteObject faults st e.Name with
    | .error msg => (.error msg, [Call.del e.Name])
    | .ok st2 =>
      let p := deleteLoop faults rest st2
      (p.1, Call.del e.Name :: p.2)

/-- `DeleteDir` (driver.go lines 194-215): list under the leading-slash
stripped path (no trailing separator appended); zero matches is a no-op,
otherwise delete each listed key. -/
def DeleteDir (faults : Faults) (st : Store) (key : Str) :
    (Except Str Store) × List Call :=
  let d := goTrimLeft key slash
  let entries := listObjs st d
  if entries.length = 0 then (.ok st, [Call.list d])
  else
    let p := deleteLoop faults entries st
    (p.1, Call.list d :: p.2)

/-- The per-entry loop of `Rename`'s directory branch (driver.go lines
241-251): copy each listed entry to its prefix-substituted name, then
delete the original, aborting on the first failure. -/
def renameLoop (faults : Faults) (src2 dst2 : Str) :
    List Obj → Store → (Except Str Store) × List Call
  | [], st => (.ok st, [])
  | entry :: rest, st =>
    let newName := replaceFirst src2 dst2 entry.Name
    match copyObject faults st entry.Name newName with
    | .error e => (.error e, [Call.copy entry.Name newName])
    | .ok st2 =>
      match deleteObject faults st2 entry.Name with
      | .error e => (.error e, [Call.copy entry.Name newName, Call.del entry.Name])
      | .ok st3 =>
        let p := renameLoop faults src2 dst2 rest st3
        (p.1, Call.copy entry.Name newName :: Call.del entry.Name :: p.2)

/-- The substring `Rename` looks for in a failed lookup's error message
(driver.go line 229). -/
def noSuchMsg : Str := "no such file or directory".data

/-- `Rename` (driver.go lines 224-261).  Single-file branch: copy then
delete, the copy's error value being overwritten by the delete's.
Directory branch (lookup miss whose message contains `noSuchMsg`):
re-resolve both paths with a trailing separator, require the source
directory key to resolve, then copy+delete each listed entry. -/
def Rename (faults : Faults) (st : Store) (keySrc keyDest : Str) :
    (Except Str Store) × List Call :=
  let src := goTrimLeft keySrc slash
  let dst := goTrimLeft keyDest slash
  match getObjectE faults st src with
  | .error msg =>
    if goContains msg noSuchMsg then
      let src2 := src ++ slash
      let dst2 := dst ++ slash
      match getObjectE faults st src2 with
      | .error msg2 => (.error msg2, [Call.get src, Call.get src2])
      | .ok _ =>
        let entries := listObjs st src2
        let p := renameLoop faults src2 dst2 entries st
        (p.1, Call.get src :: Call.get src2 :: Call.list src2 :: p.2)
    else (.error msg, [Call.get src])
  | .ok _ =>
    let st1 := match copyObject faults st src dst with
      | .ok s => s
      | .error _ => st
    match deleteObject faults st1 src with
    | .error e => (.error e, [Call.get src, Call.copy src dst, Call.del src])
    | .ok s => (.ok s, [Call.get src, Call.copy src dst, Call.del src])

/-- A parsed timestamp: calendar fields, fractional-second digits value and
the zone offset in minutes. -/
structure Time where
  year : Nat
  month : Nat
  day : Nat
  hour : Nat
  minute : Nat
  second : Nat
  frac : Nat
  tzMin : Int
deriving DecidableEq

/-- Value of a decimal digit character, if it is one. -/
def digitVal (c : Char) : Option Nat :=
  if c.isDigit then some (c.toNat - 48) else none

/-- Two decimal digits. -/
def num2 (a b : Char) : Option Nat := do
  let x ← digitVal a
  let y ← digitVal b
  pure (10 * x + y)

/-- Four decimal digits. -/
def num4 (a b c d : Char) : Option Nat := do
  let x ← num2 a b
  let y ← num2 c d
  pure (100 * x + y)

/-- Zone suffix of an RFC 3339 timestamp: `Z` or `±hh:mm`, as minutes. -/
def parseZone : Str → Option Int
  | ['Z'] => some 0
  | [sgn, h1, h2, ':', m1, m2] => do
    let h ← num2 h1 h2
    let m ← num2 m1 m2
    if h ≤ 23 ∧ m ≤ 59 then
      if sgn = '+' then pure ((h * 60 + m : Nat) : Int)
      else if sgn = '-' then pure (-((h * 60 + m : Nat) : Int))
      else none
    else none
  | _ => none

/-- Optional fractional seconds followed by the zone suffix. -/
def parseFracZone : Str → Option (Nat × Int)
  | '.' :: rest =>
    let ds := rest.takeWhile Char.isDigit
    if ds = [] then none
    else do
      let z ← parseZone (rest.drop ds.length)
      pure (ds.foldl (fun acc c => 10 * acc + (c.toNat - 48)) 0, z)
  | rest => do
    let z ← parseZone rest
    pure (0, z)

/-- Modelled from the spec: `time.Parse` with the RFC 3339 layout
(`fileinfo.go` line 34 calls the Go standard library's parser, which is
not part of this repository).  Accepts
`YYYY-MM-DDThh:mm:ss[.digits](Z|±hh:mm)` with in-range fields. -/
def parseRFC3339 : Str → Option Time
  | y1 :: y2 :: y3 :: y4 :: '-' :: mo1 :: mo2 :: '-' :: d1 :: d2 :: 'T' ::
      h1 :: h2 :: ':' :: mi1 :: mi2 :: ':' :: s1 :: s2 :: rest => do
    let y ← num4 y1 y2 y3 y4
    let mo ← num2 mo1 mo2
    let d ← num2 d1 d2
    let h ← num2 h1 h2
    let mi ← num2 mi1 mi2
    let s ← num2 s1 s2
    let fz ← parseFracZone rest
    if 1 ≤ mo ∧ mo ≤ 12 ∧ 1 ≤ d ∧ d ≤ 31 ∧ h ≤ 23 ∧ mi ≤ 59 ∧ s ≤ 59 then
      pure ⟨y, mo, d, h, mi, s, fz.1, fz.2⟩
    else none
  | _ => none

/-- `ModTime` (fileinfo.go lines 33-40): parse the object's `Updated`
field; on parse failure log and return the current time (`now`) instead of
an error. -/
def ModTime (now : Time) (f : FileInfo) : Time :=
  match parseRFC3339 f.Object.Updated with
  | some parsed => parsed
  | none => now

/-- A fault-free backend: lookups miss with the message `Rename` watches
for, and no copy or delete call fails. -/
def cleanFaults : Faults := ⟨fun _ => noSuchMsg, fun _ _ => none, fun _ => none⟩

/-- A backend on which every copy call fails. -/
def copyFailFaults : Faults :=
  ⟨fun _ => noSuchMsg, fun _ _ => some "copy failed".data, fun _ => none⟩

/-- Backend contents for the directory-rename scenario: the `d/`
placeholder (making the directory key resolve) and two objects under it. -/
def storeDxy : Store :=
  [⟨"d/".data, 0, []⟩, ⟨"d/x".data, 0, []⟩, ⟨"d/y".data, 0, []⟩]

/-- The directory-entity names emitted by a `ListDir` result. -/
def dirNames (fs : List FileInfo) : List Str :=
  (fs.filter (fun f => f.isDir)).map (fun f => f.name)

/-- C8: for every path ending in "/", `Stat` returns a directory entity
(with the empty object record) and no error, issuing no backend call. -/
theorem stat_trailing_slash_shortcircuit (st : Store) (user key : Str)
    (h : goHasSuffix key slash = true) :
    Stat st user key = (.ok ⟨key, true, user, Obj.empty⟩, []) := by
  simp [Stat, h]

/-- Witness for C8 at the concrete path "x/" over an empty backend. -/
theorem stat_trailing_slash_shortcircuit_witness :
    Stat [] ("u".data) ("x/".data) =
      (.ok ⟨"x/".data, true, "u".data, Obj.empty⟩, []) :=
  stat_trailing_slash_shortcircuit [] ("u".data) ("x/".data) (by decide)

/-- C10: the modification-time accessor never fails: it returns the
parsed time when `Updated` parses as RFC 3339 and the current time
otherwise. -/
theorem modtime_total_graceful (now : Time) (f : FileInfo) :
    (∀ t, parseRFC3339 f.Object.Updated = some t → ModTime now f = t) ∧
    (parseRFC3339 f.Object.Updated = none → ModTime now f = now) := by
  constructor
  · intro t ht
    simp [ModTime, ht]
  · intro h
    simp [ModTime, h]

/-- Witness for C10: a parsable and an unparsable `Updated` field. -/
theorem modtime_total_graceful_witness :
    ModTime ⟨2000, 1, 1, 0, 0, 0, 0, 0⟩
        ⟨[], false, [], ⟨[], 0, "2021-03-04T05:06:07Z".data⟩⟩ =
      ⟨2021, 3, 4, 5, 6, 7, 0, 0⟩ ∧
    ModTime ⟨2000, 1, 1, 0, 0, 0, 0, 0⟩
        ⟨[], false, [], ⟨[], 0, "yesterday".data⟩⟩ =
      ⟨2000, 1, 1, 0, 0, 0, 0, 0⟩ :=
  ⟨(modtime_total_graceful ⟨2000, 1, 1, 0, 0, 0, 0, 0⟩
      ⟨[], false, [], ⟨[], 0, "2021-03-04T05:06:07Z".data⟩⟩).1
      ⟨2021, 3, 4, 5, 6, 7, 0, 0⟩ (by decide),
   (modtime_total_graceful ⟨2000, 1, 1, 0, 0, 0, 0, 0⟩
      ⟨[], false, [], ⟨[], 0, "yesterday".data⟩⟩).2 (by decide)⟩

/-- C9: `DeleteDir` on a path whose prefix listing matches nothing
returns no error, leaves the store unchanged, and issues no delete call
(its trace is the single listing call). -/
theorem deletedir_empty_noop (faults : Faults) (st : Store) (key : Str)
    (h : listObjs st (goTrimLeft key slash) = []) :
    DeleteDir faults st key = (.ok st, [Call.list (goTrimLeft key slash)]) := by
  simp [DeleteDir, h]

/-- Witness for C9: deleting "y" over a backend holding only "x". -/
theorem deletedir_empty_noop_witness :
    DeleteDir cleanFaults [⟨"x".data, 0, []⟩] ("y".data) =
      (.ok [⟨"x".data, 0, []⟩], [Call.list ("y".data)]) :=
  deletedir_empty_noop cleanFaults [⟨"x".data, 0, []⟩] ("y".data) (by decide)

/-- C2 divergence: over the backend entry `photos/shot.jpg`, listing the
prefix `photos/` emits a file named ".jpg", not "shot.jpg" — the code
trims the prefix as a character cutset (`strings.TrimLeft`), not as a
string prefix, so the leading "shot" is consumed by the cutset
\x7bp,h,o,t,o,s,/\x7d. -/
theorem listdir_cutset_trim_divergence :
    ListDir [⟨"photos/shot.jpg".data, 0, []⟩] ("u".data) ("photos".data) =
      [⟨".jpg".data, false, "u".data, ⟨"photos/shot.jpg".data, 0, []⟩⟩] := by
  decide

/-- C7 counterexample: over the backend entry `photos/shot/a.jpg`, listing
the prefix `photos/` emits no directory entity at all — the cutset trim
swallows the first-level segment "shot" together with its separator, so
the distinct first-level segment under the prefix is never emitted as a
directory. -/
theorem listdir_segment_not_emitted_cex :
    ListDir [⟨"photos/shot/a.jpg".data, 0, []⟩] ("u".data) ("photos".data) =
      [⟨"a.jpg".data, false, "u".data, ⟨"photos/shot/a.jpg".data, 0, []⟩⟩] ∧
    ∀ f ∈ ListDir [⟨"photos/shot/a.jpg".data, 0, []⟩] ("u".data)
        ("photos".data), f.isDir = false := by
  decide

/-- C1 counterexample: a directory entity emitted by `ListDir` carries the
triggering backend entry's full object record, not an empty one. -/
theorem listdir_dir_entity_carries_object_cex :
    ∃ f ∈ ListDir [⟨"a/b".data, 5, "u".data⟩] ("u".data) [],
      f.isDir = true ∧ f.Object ≠ Obj.empty := by
  decide

/-- C6: with the backend holding the `d/` placeholder (so the directory
key resolves) plus `d/x` and `d/y`, lookups missing with a "no such file
or directory" message and all copies and deletes succeeding,
`Rename "d" "e"` succeeds and leaves `e/x` and `e/y` present and `d/x`
and `d/y` absent. -/
theorem rename_directory_fallback_moves :
    ∃ st2, (Rename cleanFaults storeDxy ("d".data) ("e".data)).1 = .ok st2 ∧
      (∃ o ∈ st2, o.Name = "e/x".data) ∧ (∃ o ∈ st2, o.Name = "e/y".data) ∧
      (∀ o ∈ st2, o.Name ≠ "d/x".data) ∧ (∀ o ∈ st2, o.Name ≠ "d/y".data) := by
  refine ⟨[⟨"e/".data, 0, []⟩, ⟨"e/x".data, 0, []⟩, ⟨"e/y".data, 0, []⟩],
    rfl, ?_, ?_, ?_, ?_⟩
  · decide
  · decide
  · decide
  · decide

/-- C1 (amended): every directory entity returned by `Stat` has the empty
embedded object record — only its name and directory flag (and the
attributing user) are populated. -/
theorem stat_dir_entity_object_empty (st : Store) (user key : Str)
    (f : FileInfo) (tr : List Call)
    (h : Stat st user key = (.ok f, tr)) (hd : f.isDir = true) :
    f.name = key ∧ f.Object = Obj.empty := by
  unfold Stat at h
  split at h
  · simp only [Prod.mk.injEq, Except.ok.injEq] at h
    rw [← h.1]
    exact ⟨rfl, rfl⟩
  · split at h
    · simp only [Prod.mk.injEq, Except.ok.injEq] at h
      rw [← h.1] at hd
      exact absurd hd (by simp)
    · split at h
      · simp only [Prod.mk.injEq, Except.ok.injEq] at h
        rw [← h.1]
        exact ⟨rfl, rfl⟩
      · simp only [Prod.mk.injEq] at h
        exact absurd h.1 (by simp)

/-- Witness for C1 (amended): `Stat` of "x/" over the empty backend. -/
theorem stat_dir_entity_object_empty_witness :
    (⟨"x/".data, true, "u".data, Obj.empty⟩ : FileInfo).name = "x/".data ∧
    (⟨"x/".data, true, "u".data, Obj.empty⟩ : FileInfo).Object = Obj.empty :=
  stat_dir_entity_object_empty [] ("u".data) ("x/".data)
    ⟨"x/".data, true, "u".data, Obj.empty⟩ [] rfl rfl

/-- C5: for a key without trailing separator (and no leading slashes) at
which no object is stored, `Stat` returns a directory entity when some
object's key begins with the key, and a not-found error when none does. -/
theorem stat_missing_key_dir_inference (st : Store) (user key : Str)
    (h0 : goTrimLeft key slash = key)
    (h1 : goHasSuffix key slash = false)
    (h2 : getObject st key = none) :
    ((∃ o ∈ st, key.isPrefixOf o.Name = true) →
      ∃ f, (Stat st user key).1 = .ok f ∧ f.isDir = true) ∧
    ((∀ o ∈ st, key.isPrefixOf o.Name = false) →
      (Stat st user key).1 = .error errNoDir) := by
  constructor
  · rintro ⟨o, ho, hpfx⟩
    have hmem : o ∈ listObjs st key := List.mem_filter.mpr ⟨ho, hpfx⟩
    have hlen : (listObjs st key).length > 0 :=
      List.length_pos.mpr (List.ne_nil_of_mem hmem)
    refine ⟨⟨key, true, user, Obj.empty⟩, ?_, rfl⟩
    simp [Stat, h0, h1, h2, hlen]
  · intro hall
    have hnil : listObjs st key = [] := by
      apply List.filter_eq_nil_iff.mpr
      intro o ho
      simp [hall o ho]
    simp [Stat, h0, h1, h2, hnil]

/-- Witness for C5: key "a" over a backend holding only "ab". -/
theorem stat_missing_key_dir_inference_witness :
    ∃ f, (Stat [⟨"ab".data, 0, []⟩] ("u".data) ("a".data)).1 = .ok f ∧
      f.isDir = true :=
  (stat_missing_key_dir_inference [⟨"ab".data, 0, []⟩] ("u".data) ("a".data)
    (by decide) (by decide) (by decide)).1
    ⟨⟨"ab".data, 0, []⟩, by decide, by decide⟩

/-- The `dirCache` seen-set makes the directory names emitted by the
`ListDir` loop duplicate-free and disjoint from the incoming cache. -/
theorem listDirLoop_dirNames (user pfx d : Str) :
    ∀ (entries : List Obj) (cache : List Str),
      (dirNames (listDirLoop user pfx d entries cache)).Nodup ∧
      ∀ n ∈ dirNames (listDirLoop user pfx d entries cache), n ∉ cache := by
  intro entries
  induction entries with
  | nil =>
    intro cache
    simp [listDirLoop, dirNames]
  | cons e rest ih =>
    intro cache
    simp only [listDirLoop]
    split
    · exact ih cache
    · split
      · exact ih cache
      · split
        · split
          · exact ih cache
          · rename_i hseg
            have hrec := ih (goTrim (goSplitFirst
              (goTrimLeft (goTrimLeft e.Name d) slash) '/') slash :: cache)
            constructor
            · rw [dirNames, List.filter_cons_of_pos (by rfl), List.map_cons,
                List.nodup_cons]
              refine ⟨fun hmem => ?_, hrec.1⟩
              exact (hrec.2 _ hmem) (List.mem_cons_self _ _)
            · intro n hn
              rw [dirNames, List.filter_cons_of_pos (by rfl), List.map_cons] at hn
              rcases List.mem_cons.mp hn with hEq | hTail
              · subst hEq
                exact hseg
              · have := hrec.2 n hTail
                simp only [List.mem_cons, not_or] at this
                exact this.2
        · constructor
          · rw [dirNames, List.filter_cons_of_neg (by simp), ← dirNames]
            exact (ih cache).1
          · intro n hn
            rw [dirNames, List.filter_cons_of_neg (by simp), ← dirNames] at hn
            exact (ih cache).2 n hn

/-- C7 (amended): within one `ListDir` call no directory name is emitted
twice — the per-call seen-set suppresses every later occurrence. -/
theorem listdir_dir_names_nodup (st : Store) (user pfx : Str) :
    (dirNames (ListDir st user pfx)).Nodup := by
  have h := listDirLoop_dirNames user pfx
    (if goTrimLeft pfx slash = [] then goTrimLeft pfx slash
     else goTrimLeft pfx slash ++ slash)
    (listObjs st
      (if goTrimLeft pfx slash = [] then goTrimLeft pfx slash
       else goTrimLeft pfx slash ++ slash)) []
  exact h.1

/-- With no delete faults, the `DeleteDir` loop succeeds, removes exactly
the listed names, and issues one delete call per listed entry. -/
theorem deleteLoop_clean (faults : Faults) (hf : ∀ k, faults.deleteFail k = none) :
    ∀ (entries : List Obj) (st : Store),
      deleteLoop faults entries st =
        (.ok (st.filter (fun o => !(entries.any (fun e => e.Name == o.Name)))),
         entries.map (fun e => Call.del e.Name)) := by
  intro entries
  induction entries with
  | nil =>
    intro st
    simp [deleteLoop]
  | cons e rest ih =>
    intro st
    simp only [deleteLoop, deleteObject, hf]
    rw [ih]
    simp only [List.map_cons, Prod.mk.injEq, Except.ok.injEq]
    refine ⟨?_, trivial⟩
    rw [List.filter_filter]
    apply List.filter_congr
    intro o _
    by_cases hx : o.Name = e.Name
    · simp [hx]
    · have hb1 : (o.Name == e.Name) = false := beq_eq_false_iff_ne.mpr hx
      have hb2 : (e.Name == o.Name) = false := beq_eq_false_iff_ne.mpr (Ne.symm hx)
      simp only [List.any_cons, bne]
      rw [hb1, hb2]
      cases rest.any (fun x => x.Name == o.Name) <;> rfl

/-- C4: with no delete faults, `DeleteDir path` removes exactly the
objects whose keys begin with the leading-slash-stripped path (no
trailing separator is appended), leaving every other object in place,
and its trace is the listing call followed by one delete per matching
key. -/
theorem deletedir_textual_scope (faults : Faults) (st : Store) (key : Str)
    (hf : ∀ k, faults.deleteFail k = none) :
    (DeleteDir faults st key).1 =
      .ok (st.filter (fun o => !((goTrimLeft key slash).isPrefixOf o.Name))) ∧
    (DeleteDir faults st key).2 =
      Call.list (goTrimLeft key slash) ::
        (listObjs st (goTrimLeft key slash)).map (fun o => Call.del o.Name) := by
  unfold DeleteDir
  by_cases hz : (listObjs st (goTrimLeft key slash)).length = 0
  · have hnil : listObjs st (goTrimLeft key slash) = [] :=
      List.length_eq_zero.mp hz
    have hkeep : st.filter
        (fun o => !((goTrimLeft key slash).isPrefixOf o.Name)) = st := by
      apply List.filter_eq_self.mpr
      intro o ho
      cases hp : List.isPrefixOf (goTrimLeft key slash) o.Name with
      | false => rfl
      | true =>
        have hmem : o ∈ listObjs st (goTrimLeft key slash) :=
          List.mem_filter.mpr ⟨ho, hp⟩
        rw [hnil] at hmem
        cases hmem
    simp [hz, hnil, hkeep]
  · simp only [hz, if_false]
    rw [deleteLoop_clean faults hf]
    refine ⟨?_, rfl⟩
    simp only [Except.ok.injEq]
    apply List.filter_congr
    intro o ho
    congr 1
    cases hp : (goTrimLeft key slash).isPrefixOf o.Name
    · apply List.any_eq_false.mpr
      intro e he
      rw [Bool.not_eq_true, ← Bool.not_eq_true]
      intro hbeq
      have hename := List.mem_filter.mp he
      rw [beq_iff_eq.mp hbeq] at hename
      rw [hename.2] at hp
      cases hp
    · apply List.any_eq_true.mpr
      exact ⟨o, List.mem_filter.mpr ⟨ho, hp⟩, beq_iff_eq.mpr rfl⟩

/-- Witness for C4: deleting "foo" over a backend holding "foobar" and
"baz" deletes the merely-textually-matching "foobar" and keeps "baz". -/
theorem deletedir_textual_scope_witness :
    (DeleteDir cleanFaults [⟨"foobar".data, 0, []⟩, ⟨"baz".data, 0, []⟩]
        ("foo".data)).1 = .ok [⟨"baz".data, 0, []⟩] ∧
    (DeleteDir cleanFaults [⟨"foobar".data, 0, []⟩, ⟨"baz".data, 0, []⟩]
        ("foo".data)).2 =
      [Call.list ("foo".data), Call.del ("foobar".data)] := by
  have h := deletedir_textual_scope cleanFaults
    [⟨"foobar".data, 0, []⟩, ⟨"baz".data, 0, []⟩] ("foo".data)
    (fun _ => rfl)
  refine ⟨?_, ?_⟩
  · rw [h.1]
    rfl
  · rw [h.2]
    rfl

/-- C3: in `Rename`'s single-file branch, a failing copy does not abort
the operation: the delete of the source key is still issued (it is in
the call trace), and the returned outcome is exactly the delete's — the
copy error never surfaces. -/
theorem rename_file_copy_error_discarded (faults : Faults) (st : Store)
    (keySrc keyDest : Str) (o : Obj) (cmsg : Str)
    (h1 : getObject st (goTrimLeft keySrc slash) = some o)
    (h2 : faults.copyFail (goTrimLeft keySrc slash)
      (goTrimLeft keyDest slash) = some cmsg) :
    Call.del (goTrimLeft keySrc slash) ∈ (Rename faults st keySrc keyDest).2 ∧
    (Rename faults st keySrc keyDest).1 =
      deleteObject faults st (goTrimLeft keySrc slash) := by
  unfold Rename
  simp only [getObjectE, h1, copyObject, h2]
  cases hdel : deleteObject faults st (goTrimLeft keySrc slash) with
  | error e => simp [hdel]
  | ok s => simp [hdel]

/-- Witness for C3: with every copy failing and deletes clean, renaming
the single object "a" to "b" still returns success (the delete's
outcome), having issued the delete call. -/
theorem rename_file_copy_error_discarded_witness :
    Call.del ("a".data) ∈
      (Rename copyFailFaults [⟨"a".data, 0, []⟩] ("a".data) ("b".data)).2 ∧
    (Rename copyFailFaults [⟨"a".data, 0, []⟩] ("a".data) ("b".data)).1 =
      Except.ok [] := by
  have h := rename_file_copy_error_discarded copyFailFaults
    [⟨"a".data, 0, []⟩] ("a".data) ("b".data) ⟨"a".data, 0, []⟩
    ("copy failed".data) (by decide) (by decide)
  exact ⟨h.1, h.2⟩

end GcsDriver
